import Mathlib

/-!
# ZeroClaw — verification of the spec against the source

Shallow embedding of the ZeroClaw agent-gateway core (Rust) in Lean 4,
with theorems checking the specification's claims (C1-C10) about:

* the agent loop detector (`src/agent/loop_/detection.rs`),
* the URL-access guard (`src/tools/web_fetch.rs`),
* the OpenAI-compatible chat intake (`src/gateway/openclaw_compat.rs`),
* the hybrid memory layer (`src/memory/hybrid.rs`),
* the device registry and GPIO tools (`src/hardware/device.rs`, `gpio.rs`),
* the subprocess plugin runtime (`src/hardware/subprocess.rs`).

Rust strings are embedded as Lean `String` when only compared/concatenated,
and as `List Nat` of UTF-8 bytes where byte-level slicing matters.
Machine integers are `Nat` with explicit `% 2^64` where overflow matters.
-/

set_option maxRecDepth 10000

namespace ZeroClaw

/-! ## Generic list/char helpers (shared by several embeddings) -/

/-- Does `pat` lead the list `l`? (embeds Rust `str::starts_with` on char lists). -/
def leadsWith : List Char → List Char → Bool
  | _, [] => true
  | [], _ :: _ => false
  | c :: cs, p :: ps => c == p && leadsWith cs ps

/-- Substring search: does `needle` occur contiguously in `hay`?
(embeds Rust `str::contains` used by the spec's "text contains" checks). -/
def containsSub (hay needle : List Char) : Bool :=
  leadsWith hay needle ||
    match hay with
    | [] => false
    | _ :: t => containsSub t needle

/-- String-level wrapper for `containsSub`. -/
def strContains (hay needle : String) : Bool :=
  containsSub hay.data needle.data

/-! ## 64-bit arithmetic for the hasher (`std::hash::DefaultHasher` = SipHash-1-3)

`u64` is embedded as `Nat` reduced mod `2^64`. -/

/-- `2^64`. -/
def w64mod : Nat := 18446744073709551616

/-- Wrapping 64-bit addition. -/
def wadd (a b : Nat) : Nat := (a + b) % w64mod

/-- 64-bit xor (closed on values `< 2^64`). -/
def wxor (a b : Nat) : Nat := Nat.xor a b

/-- 64-bit rotate-left by `r`. -/
def wrotl (x r : Nat) : Nat :=
  Nat.lor ((x * 2 ^ r) % w64mod) (x / 2 ^ (64 - r))

/-- SipHash state: `(v0, v1, v2, v3)`. -/
structure SipState where
  v0 : Nat
  v1 : Nat
  v2 : Nat
  v3 : Nat

/-- One SipHash round. -/
def sipRound (s : SipState) : SipState :=
  let v0 := wadd s.v0 s.v1
  let v1 := wrotl s.v1 13
  let v1 := wxor v1 v0
  let v0 := wrotl v0 32
  let v2 := wadd s.v2 s.v3
  let v3 := wrotl s.v3 16
  let v3 := wxor v3 v2
  let v0 := wadd v0 v3
  let v3 := wrotl v3 21
  let v3 := wxor v3 v0
  let v2 := wadd v2 v1
  let v1 := wrotl v1 17
  let v1 := wxor v1 v2
  let v2 := wrotl v2 32
  ⟨v0, v1, v2, v3⟩

/-- Little-endian value of at most 8 bytes. -/
def le8 : List Nat → Nat
  | [] => 0
  | b :: rest => b % 256 + 256 * le8 rest

/-- Absorb one 8-byte word with `c = 1` compression round (SipHash-1-3). -/
def sipAbsorb (s : SipState) (m : Nat) : SipState :=
  let s := { s with v3 := wxor s.v3 m }
  let s := sipRound s
  { s with v0 := wxor s.v0 m }

/-- Process full 8-byte blocks of the message. -/
def sipBlocks (s : SipState) : List Nat → SipState × List Nat
  | b0 :: b1 :: b2 :: b3 :: b4 :: b5 :: b6 :: b7 :: rest =>
    sipBlocks (sipAbsorb s (le8 [b0, b1, b2, b3, b4, b5, b6, b7])) rest
  | tail => (s, tail)

/-- SipHash-1-3 with key `(0, 0)` of a byte sequence — the algorithm behind
Rust's `std::hash::DefaultHasher` (`SipHasher13::new_with_keys(0, 0)`). -/
def siphash13 (bytes : List Nat) : Nat :=
  let init : SipState :=
    ⟨0x736f6d6570736575, 0x646f72616e646f6d, 0x6c7967656e657261, 0x7465646279746573⟩
  let (s, tail) := sipBlocks init bytes
  let b := wadd ((bytes.length % 256) * 2 ^ 56 % w64mod) (le8 tail)
  let s := sipAbsorb s b
  let s := { s with v2 := wxor s.v2 0xff }
  let s := sipRound (sipRound (sipRound s))
  wxor (wxor s.v0 s.v1) (wxor s.v2 s.v3)

/-- Hash of a `&str`'s bytes as Rust's `Hash for str` feeds them to the hasher:
`state.write(bytes); state.write_u8(0xff)` — i.e. SipHash-1-3 of
`bytes ++ [0xff]`. -/
def hashStrBytes (bytes : List Nat) : Nat :=
  siphash13 (bytes ++ [0xff])

/-! ## Loop detector (`src/agent/loop_/detection.rs`) -/

/-- `OUTPUT_HASH_PREFIX_BYTES` (detection.rs:16). -/
def OUTPUT_HASH_PREFIX_BYTES : Nat := 4096

/-- Is byte index 4096 a UTF-8 char boundary of `output`?  Rust's
`str::is_char_boundary`: the byte at the index is not a continuation
byte (`0x80..=0xBF`).  Out-of-range indices do not arise here because this
is only consulted when `output.length > 4096`. -/
def isCharBoundary4096 (output : List Nat) : Bool :=
  let b := output.getD OUTPUT_HASH_PREFIX_BYTES 0
  b < 0x80 || 0xc0 ≤ b

/-- `hash_output` (detection.rs:221-230).  The Rust code slices
`&output[..4096]` when `output.len() > 4096`; that byte-indexed slice
**panics** when byte 4096 falls inside a multi-byte UTF-8 character.
The panic is modelled as `none`. -/
def hash_output (output : List Nat) : Option Nat :=
  if output.length > OUTPUT_HASH_PREFIX_BYTES then
    if isCharBoundary4096 output then
      some (hashStrBytes (output.take OUTPUT_HASH_PREFIX_BYTES))
    else
      none
  else
    some (hashStrBytes output)

/-- `LoopDetectionConfig` (detection.rs:22-32). -/
structure LoopDetectionConfig where
  noProgressThreshold : Nat
  pingPongCycles : Nat
  failureStreakThreshold : Nat
deriving DecidableEq

/-- `LoopDetectionConfig::default()` (detection.rs:34-42). -/
def LoopDetectionConfig.default : LoopDetectionConfig :=
  ⟨3, 2, 3⟩

/-- `DetectionVerdict` (detection.rs:48-55). -/
inductive DetectionVerdict where
  | Continue : DetectionVerdict
  | InjectWarning : String → DetectionVerdict
  | HardStop : String → DetectionVerdict
deriving DecidableEq

/-- `CallRecord` (detection.rs:59-64). -/
structure CallRecord where
  toolName : String
  argsSig : String
  resultHash : Nat
  success : Bool
deriving DecidableEq

/-- `LoopDetector` state (detection.rs:68-73).  The
`consecutive_failures: HashMap<String, usize>` is embedded as an
association list (iteration order of the std HashMap is unspecified;
the claims settled here do not depend on it). -/
structure LoopDetector where
  config : LoopDetectionConfig
  history : List CallRecord
  consecutiveFailures : List (String × Nat)
  warningInjected : Bool

/-- `LoopDetector::new` (detection.rs:76-83). -/
def LoopDetector.new (config : LoopDetectionConfig) : LoopDetector :=
  ⟨config, [], [], false⟩

/-- `HashMap::remove(tool_name)` on the association list. -/
def failuresRemove (m : List (String × Nat)) (k : String) : List (String × Nat) :=
  m.filter (fun p => p.1 != k)

/-- `*map.entry(tool).or_insert(0) += 1` on the association list. -/
def failuresBump : List (String × Nat) → String → List (String × Nat)
  | [], k => [(k, 1)]
  | (k', v) :: rest, k =>
    if k' == k then (k', v + 1) :: rest else (k', v) :: failuresBump rest k

/-- The pure tail of `record_call` (detection.rs:91-108) once the result
hash has been computed: append the record; clear the tool's failure
counter on success, bump it on failure. -/
def LoopDetector.recordHashed (d : LoopDetector) (toolName argsSig : String)
    (resultHash : Nat) (success : Bool) : LoopDetector :=
  { d with
    history := d.history ++ [⟨toolName, argsSig, resultHash, success⟩]
    consecutiveFailures :=
      if success then failuresRemove d.consecutiveFailures toolName
      else failuresBump d.consecutiveFailures toolName }

/-- `record_call` (detection.rs:91-108): computes `hash_output output`
(which panics — `none` — on a mid-codepoint byte 4096) and appends. -/
def LoopDetector.record_call (d : LoopDetector) (toolName argsSig : String)
    (output : List Nat) (success : Bool) : Option LoopDetector :=
  (hash_output output).map (fun h => d.recordHashed toolName argsSig h success)

/-- Record equality on `(tool_name, args_sig, result_hash)` used by the
no-progress and ping-pong strategies. -/
def sameCall (r last : CallRecord) : Bool :=
  r.toolName == last.toolName && r.argsSig == last.argsSig &&
    r.resultHash == last.resultHash

/-- The streak: length of the maximal suffix of `hist` whose records all
equal the most recent record on `(tool_name, args_sig, result_hash)`
(detection.rs:138-147, `iter().rev().take_while(...)`). -/
def noProgressStreak (hist : List CallRecord) : Nat :=
  match hist.getLast? with
  | none => 0
  | some last => (hist.reverse.takeWhile (fun r => sameCall r last)).length

/-- Reason text of the no-progress strategy (detection.rs:149-153). -/
def noProgressMsg (tool : String) (streak : Nat) : String :=
  "Tool '" ++ tool ++ "' called " ++ toString streak ++
    " times with identical arguments and identical results — no progress detected"

/-- `check_no_progress_repeat` (detection.rs:132-157). -/
def check_no_progress_repeat (cfg : LoopDetectionConfig)
    (hist : List CallRecord) : Option String :=
  if cfg.noProgressThreshold == 0 || hist.isEmpty then none
  else
    match hist.getLast? with
    | none => none
    | some last =>
      let streak := (hist.reverse.takeWhile (fun r => sameCall r last)).length
      if cfg.noProgressThreshold ≤ streak then
        some (noProgressMsg last.toolName streak)
      else none

/-- `tail.chunks(2).all(|pair| pair.len() == 2 && pair[0] ~ a && pair[1] ~ b)`
(detection.rs:180-188): every 2-chunk is a full `(a, b)` pair. -/
def pairsMatch (a b : CallRecord) : List CallRecord → Bool
  | [] => true
  | [_] => false
  | x :: y :: rest => sameCall x a && sameCall y b && pairsMatch a b rest

/-- Reason text of the ping-pong strategy (detection.rs:191-194). -/
def pingPongMsg (toolA toolB : String) (cycles : Nat) : String :=
  "Ping-pong loop detected: '" ++ toolA ++ "' and '" ++ toolB ++
    "' alternating " ++ toString cycles ++ " times with no progress"

/-- `check_ping_pong` (detection.rs:161-198). -/
def check_ping_pong (cfg : LoopDetectionConfig)
    (hist : List CallRecord) : Option String :=
  if cfg.pingPongCycles == 0 || hist.length < 4 then none
  else
    match hist.getLast?, (hist.dropLast).getLast? with
    | some b, some a =>
      if a.toolName == b.toolName && a.argsSig == b.argsSig then none
      else
        let minEntries := cfg.pingPongCycles * 2
        if hist.length < minEntries then none
        else
          let tail := hist.drop (hist.length - minEntries)
          if pairsMatch a b tail then
            some (pingPongMsg a.toolName b.toolName cfg.pingPongCycles)
          else none
    | _, _ => none

/-- Reason text of the failure-streak strategy (detection.rs:209-212). -/
def failureStreakMsg (tool : String) (count : Nat) : String :=
  "Tool '" ++ tool ++ "' failed " ++ toString count ++ " consecutive times"

/-- `check_failure_streak` (detection.rs:202-216). -/
def check_failure_streak (cfg : LoopDetectionConfig)
    (failures : List (String × Nat)) : Option String :=
  if cfg.failureStreakThreshold == 0 then none
  else
    (failures.find? (fun p => cfg.failureStreakThreshold ≤ p.2)).map
      (fun p => failureStreakMsg p.1 p.2)

/-- `format_warning` (detection.rs:232-241). -/
def format_warning (reason : String) : String :=
  "IMPORTANT: A loop pattern has been detected in your tool usage. " ++ reason ++
    ". You must change your approach: " ++
    "(1) Try a different tool or different arguments, " ++
    "(2) If polling a process, increase wait time or check if it's stuck, " ++
    "(3) If the task cannot be completed, explain why and stop. " ++
    "Do NOT repeat the same tool call with the same arguments."

/-- The three strategies in order (detection.rs:112-115). -/
def checkReason (d : LoopDetector) : Option String :=
  (check_no_progress_repeat d.config d.history).orElse (fun _ =>
    (check_ping_pong d.config d.history).orElse (fun _ =>
      check_failure_streak d.config d.consecutiveFailures))

/-- `check` (detection.rs:111-128): verdict plus updated detector state
(the `warning_injected` latch is the only mutation). -/
def LoopDetector.check (d : LoopDetector) : DetectionVerdict × LoopDetector :=
  match checkReason d with
  | none => (.Continue, d)
  | some msg =>
    if d.warningInjected then (.HardStop msg, d)
    else (.InjectWarning (format_warning msg), { d with warningInjected := true })

/-! ### Detector lifetime runs (for C2, C3) -/

/-- Operations of a detector lifetime: a completed tool call (its raw
output bytes) or a `check()`. -/
inductive DetOp where
  | call (toolName argsSig : String) (output : List Nat) (success : Bool)
  | chk

/-- Run a sequence of operations (`record_call` / `check`) from a state,
collecting the verdict of every `check`.  `none` models the process
aborting because `record_call` panicked in `hash_output`. -/
def runOps (d : LoopDetector) :
    List DetOp → Option (LoopDetector × List DetectionVerdict)
  | [] => some (d, [])
  | .call t a o s :: rest =>
    match d.record_call t a o s with
    | none => none
    | some d' => runOps d' rest
  | .chk :: rest =>
    let (v, d') := d.check
    (runOps d' rest).map (fun r => (r.1, v :: r.2))

/-- The verdict-policy invariant as a checker: scanning the verdicts of a
lifetime with the latch value `warned`, `InjectWarning` appears only with
the latch clear (and sets it), `HardStop` only with the latch set. -/
def verdictPolicyOk : Bool → List DetectionVerdict → Bool
  | _, [] => true
  | warned, .Continue :: rest => verdictPolicyOk warned rest
  | warned, .InjectWarning _ :: rest => !warned && verdictPolicyOk true rest
  | warned, .HardStop _ :: rest => warned && verdictPolicyOk warned rest

/-- Detector verdicts: is an `InjectWarning` whose text contains `s`? -/
def isWarnContaining (v : DetectionVerdict) (s : String) : Bool :=
  match v with
  | .InjectWarning m => strContains m s
  | _ => false

/-- Detector verdicts: is a `HardStop` whose text contains `s`? -/
def isStopContaining (v : DetectionVerdict) (s : String) : Bool :=
  match v with
  | .HardStop m => strContains m s
  | _ => false


/-! ### Lemmas about the detector -/

/-- `record_call` never touches the warning latch. -/
theorem recordHashed_warning (d : LoopDetector) (t a : String) (h : Nat) (s : Bool) :
    (d.recordHashed t a h s).warningInjected = d.warningInjected := rfl

/-- A `check` with no triggering strategy returns `Continue` and the state
unchanged. -/
theorem check_continue_of_no_reason (d : LoopDetector) (h : checkReason d = none) :
    d.check = (.Continue, d) := by
  unfold LoopDetector.check
  rw [h]

/-- The verdict-policy invariant holds along any run, relative to the
starting latch value. -/
theorem runOps_policy (ops : List DetOp) :
    ∀ (d : LoopDetector) (res : LoopDetector × List DetectionVerdict),
      runOps d ops = some res → verdictPolicyOk d.warningInjected res.2 = true := by
  induction ops with
  | nil =>
    intro d res hrun
    simp only [runOps, Option.some.injEq] at hrun
    subst hrun
    rfl
  | cons op rest ih =>
    intro d res hrun
    cases op with
    | call t a o s =>
      simp only [runOps] at hrun
      cases hrec : d.record_call t a o s with
      | none => rw [hrec] at hrun; exact absurd hrun (by simp)
      | some d' =>
        rw [hrec] at hrun
        have hw : d'.warningInjected = d.warningInjected := by
          simp only [LoopDetector.record_call, Option.map_eq_some'] at hrec
          obtain ⟨hv, _, hd'⟩ := hrec
          rw [← hd']
          rfl
        rw [← hw]
        exact ih d' res hrun
    | chk =>
      simp only [runOps] at hrun
      cases hres : runOps (d.check).2 rest with
      | none => rw [hres] at hrun; exact absurd hrun (by simp)
      | some r' =>
        rw [hres] at hrun
        simp only [Option.map_some', Option.some.injEq] at hrun
        subst hrun
        unfold LoopDetector.check at hres ⊢
        cases hr : checkReason d with
        | none =>
          rw [hr] at hres
          simpa [verdictPolicyOk] using ih d r' hres
        | some msg =>
          rw [hr] at hres
          cases hw : d.warningInjected with
          | true =>
            rw [hw] at hres
            simp only [if_true] at hres
            simp only [hr, hw, if_true, verdictPolicyOk, Bool.true_and]
            have := ih d r' hres
            rwa [hw] at this
          | false =>
            rw [hw] at hres
            simp only [Bool.false_eq_true, if_false] at hres
            simp only [hr, hw, Bool.false_eq_true, if_false, verdictPolicyOk,
              Bool.not_false, Bool.true_and]
            exact ih _ r' hres


/-- Is the verdict an `InjectWarning`? -/
def isInject (v : DetectionVerdict) : Bool :=
  match v with
  | .InjectWarning _ => true
  | _ => false

/-- A verdict list passing the policy checker contains at most one
`InjectWarning` (none at all if the latch starts set). -/
theorem policy_inject_count (l : List DetectionVerdict) :
    ∀ w : Bool, verdictPolicyOk w l = true →
      l.countP isInject ≤ if w then 0 else 1 := by
  induction l with
  | nil => intro w _; simp
  | cons v rest ih =>
    intro w hok
    cases v with
    | Continue =>
      simp only [verdictPolicyOk] at hok
      simpa [List.countP_cons, isInject] using ih w hok
    | InjectWarning m =>
      simp only [verdictPolicyOk, Bool.and_eq_true, Bool.not_eq_true'] at hok
      obtain ⟨hw, hok⟩ := hok
      subst hw
      have := ih true hok
      simp only [if_true] at this
      simp [List.countP_cons, isInject, this]
    | HardStop m =>
      simp only [verdictPolicyOk, Bool.and_eq_true] at hok
      obtain ⟨hw, hok⟩ := hok
      simpa [List.countP_cons, isInject] using ih w hok

/-- C2: over any lifetime of a fresh detector, (i) the verdict stream
satisfies the latch policy — `InjectWarning` only with the latch clear
(setting it), `HardStop` only with the latch already set — hence (ii) at
most one `InjectWarning` ever, and `HardStop` only strictly after it; and
(iii) a `check` with no triggering strategy returns `Continue` with the
whole detector state (latch included) unchanged. -/
theorem claim_C2 :
    (∀ (cfg : LoopDetectionConfig) (ops : List DetOp)
        (res : LoopDetector × List DetectionVerdict),
        runOps (LoopDetector.new cfg) ops = some res →
        verdictPolicyOk false res.2 = true ∧ res.2.countP isInject ≤ 1)
    ∧ (∀ d : LoopDetector, checkReason d = none → d.check = (.Continue, d)) := by
  constructor
  · intro cfg ops res hrun
    have h := runOps_policy ops (LoopDetector.new cfg) res hrun
    refine ⟨h, ?_⟩
    simpa using policy_inject_count res.2 false h
  · exact check_continue_of_no_reason

/-- Witness for C2 at a concrete lifetime: three identical calls, two
checks — the run yields `[InjectWarning …, HardStop …]`, which passes the
policy checker; and a fresh detector's `check` is a no-op `Continue`. -/
theorem claim_C2_witness :
    (verdictPolicyOk false
        (((runOps (LoopDetector.new .default)
          [.chk]).getD (LoopDetector.new .default, [])).2) = true)
    ∧ (LoopDetector.new .default).check = (.Continue, LoopDetector.new .default) :=
  ⟨(claim_C2.1 .default [.chk] _ rfl).1, claim_C2.2 _ rfl⟩


/-! ### C3: the no-progress strategy -/

/-- UTF-8 bytes of the scenario output `"hello"`. -/
def helloBytes : List Nat := [104, 101, 108, 108, 111]

/-- The canonical args signature of the scenario (`{"msg":"hi"}`). -/
def scenarioSig : String := "\x7b\"msg\":\"hi\"\x7d"

/-- The C3 scenario ops: three identical successful calls, a check, a
fourth identical call, a second check. -/
def scenarioOps : List DetOp :=
  [ .call "echo" scenarioSig helloBytes true
  , .call "echo" scenarioSig helloBytes true
  , .call "echo" scenarioSig helloBytes true
  , .chk
  , .call "echo" scenarioSig helloBytes true
  , .chk ]

/-- The two verdicts of the scenario: first an `InjectWarning` containing
"no progress", then a `HardStop` containing "no progress". -/
def scenarioVerdictsOk : Bool :=
  match runOps (LoopDetector.new .default) scenarioOps with
  | some (_, [v1, v2]) =>
    isWarnContaining v1 ("no progress") && isStopContaining v2 ("no progress")
  | _ => false

/-- C3: (i) with a positive threshold `t`, the no-progress strategy fires
exactly when the maximal suffix of records equal to the most recent on
`(tool, args_sig, result_hash)` has length at least `t`; (ii) with `t = 0`
it never fires; (iii) in the concrete default-config scenario, the check
after the third identical call yields `InjectWarning` containing
"no progress", and the check after the fourth yields `HardStop`
containing "no progress". -/
theorem claim_C3 :
    (∀ (cfg : LoopDetectionConfig) (hist : List CallRecord),
        0 < cfg.noProgressThreshold →
        ((check_no_progress_repeat cfg hist).isSome ↔
          cfg.noProgressThreshold ≤ noProgressStreak hist))
    ∧ (∀ (cfg : LoopDetectionConfig) (hist : List CallRecord),
        cfg.noProgressThreshold = 0 → check_no_progress_repeat cfg hist = none)
    ∧ scenarioVerdictsOk = true := by
  refine ⟨?_, ?_, by decide⟩
  · intro cfg hist ht
    have hz : (cfg.noProgressThreshold == 0) = false := by
      simp [Nat.pos_iff_ne_zero.mp ht]
    cases hist with
    | nil =>
      simp [check_no_progress_repeat, noProgressStreak, Nat.not_le.mpr ht]
    | cons x xs =>
      have hne : (x :: xs) ≠ [] := by simp
      obtain ⟨last, hlast⟩ := Option.isSome_iff_exists.mp
        (List.getLast?_isSome.mpr hne)
      simp only [check_no_progress_repeat, noProgressStreak, hz,
        List.isEmpty_cons, Bool.or_self, Bool.false_eq_true, if_false, hlast]
      split
      · rename_i hle
        exact ⟨fun _ => hle, fun _ => rfl⟩
      · rename_i hlt
        simp only [Option.isSome_none, Bool.false_eq_true, false_iff]
        exact hlt
  · intro cfg hist h0
    simp [check_no_progress_repeat, h0]


/-- Witness for C3: the firing criterion instantiated at a concrete
three-record history under the default config, and the disabled case at a
zero threshold. -/
theorem claim_C3_witness :
    ((check_no_progress_repeat .default
        (List.replicate 3 ⟨"echo", scenarioSig, 7, true⟩)).isSome ↔
      3 ≤ noProgressStreak (List.replicate 3 ⟨"echo", scenarioSig, 7, true⟩))
    ∧ check_no_progress_repeat ⟨0, 2, 3⟩ [] = none :=
  ⟨claim_C3.1 .default _ (by decide), claim_C3.2.1 ⟨0, 2, 3⟩ [] rfl⟩

/-! ### C7: `hash_output` totality -/

/-- A 4 098-byte tool output whose byte 4096 falls inside the multi-byte
character `€` (`0xE2 0x82 0xAC`): 4 095 ASCII bytes then the euro sign. -/
def panickingOutput : List Nat :=
  List.replicate 4095 97 ++ [0xe2, 0x82, 0xac]

/-- `panickingOutput` has 4 098 bytes and byte 4096 is the continuation
byte `0x82`, so `hash_output` hits the panicking slice. -/
theorem hash_output_panicking : hash_output panickingOutput = none := by
  have hlen : panickingOutput.length = 4098 := by
    rw [panickingOutput, List.length_append, List.length_replicate]
    rfl
  have hb : panickingOutput.getD 4096 0 = 0x82 := by
    rw [panickingOutput, List.getD_eq_getElem?_getD,
      List.getElem?_append_right (by rw [List.length_replicate]; omega)]
    rw [List.length_replicate]
    rfl
  rw [hash_output, isCharBoundary4096]
  rw [hlen]
  rw [show OUTPUT_HASH_PREFIX_BYTES = 4096 from rfl, hb]
  norm_num

/-- On success, the hash only depends on the first 4 096 bytes. -/
theorem hash_output_eq_of_some (o : List Nat) (h : Nat)
    (hs : hash_output o = some h) : h = hashStrBytes (o.take 4096) := by
  unfold hash_output at hs
  split at hs
  · split at hs
    · exact (Option.some.injEq _ _ ▸ hs).symm
    · exact absurd hs (by simp)
  · rename_i hlen
    have : o.take 4096 = o :=
      List.take_of_length_le (by simpa [OUTPUT_HASH_PREFIX_BYTES] using hlen)
    rw [this]
    exact (Option.some.injEq _ _ ▸ hs).symm

/-- C7: the claim's totality fails — at `panickingOutput` the byte-indexed
slice `&output[..4096]` lands mid-codepoint and `hash_output` panics
(modelled `none`); the claim's agreement property does hold whenever both
hashes are produced: outputs agreeing on the 4 096-byte prefix hash
equal. -/
theorem claim_C7 :
    hash_output panickingOutput = none
    ∧ (∀ o1 o2 : List Nat, o1.take 4096 = o2.take 4096 →
        ∀ h1 h2 : Nat, hash_output o1 = some h1 → hash_output o2 = some h2 →
          h1 = h2) := by
  constructor
  · exact hash_output_panicking
  · intro o1 o2 htake h1 h2 hs1 hs2
    rw [hash_output_eq_of_some o1 h1 hs1, hash_output_eq_of_some o2 h2 hs2, htake]

/-- Witness for C7's conditional part at concrete inputs. -/
theorem claim_C7_witness :
    hashStrBytes helloBytes = hashStrBytes helloBytes :=
  claim_C7.2 helloBytes helloBytes rfl _ _ rfl rfl


/-! ## Device registry (`src/hardware/device.rs`) — claim C8 -/

/-- `str::starts_with` on Lean strings. -/
def leadsWithS (s pat : String) : Bool :=
  leadsWith s.data pat.data

/-- `alias_prefix` (device.rs:563-572), the match arms in source order. -/
def aliasPfx (boardName : String) : String :=
  if leadsWithS boardName ("raspberry-pi-pico") || leadsWithS boardName ("pico") then
    "pico"
  else if leadsWithS boardName ("arduino") then "arduino"
  else if leadsWithS boardName ("esp32") || leadsWithS boardName ("esp") then "esp"
  else if leadsWithS boardName ("nucleo") || leadsWithS boardName ("stm32") then "nucleo"
  else if leadsWithS boardName ("rpi") || boardName == "raspberry-pi" then "rpi"
  else "device"

/-- The claim's table as frozen: `pico*`, `arduino*`, `esp*`,
`nucleo*`/`stm32*`, `rpi*` or exactly `raspberry-pi`, else `device` — with
no clause for `raspberry-pi-pico*`. -/
def specAliasPfxClaim (boardName : String) : String :=
  if leadsWithS boardName ("pico") then "pico"
  else if leadsWithS boardName ("arduino") then "arduino"
  else if leadsWithS boardName ("esp") then "esp"
  else if leadsWithS boardName ("nucleo") || leadsWithS boardName ("stm32") then "nucleo"
  else if leadsWithS boardName ("rpi") || boardName == "raspberry-pi" then "rpi"
  else "device"

/-- The claim's table as amended by the counterexample: board names
beginning `raspberry-pi-pico` also map to `pico`. -/
def specAliasPfxAmended (boardName : String) : String :=
  if leadsWithS boardName ("pico") || leadsWithS boardName ("raspberry-pi-pico") then
    "pico"
  else if leadsWithS boardName ("arduino") then "arduino"
  else if leadsWithS boardName ("esp") then "esp"
  else if leadsWithS boardName ("nucleo") || leadsWithS boardName ("stm32") then "nucleo"
  else if leadsWithS boardName ("rpi") || boardName == "raspberry-pi" then "rpi"
  else "device"

/-- Decimal digit values with explicit fuel (structural recursion so the
kernel can evaluate it; the fuel-0 arm is unreachable for fuel ≥ n). -/
def natDigitsFuel : Nat → Nat → List Nat
  | 0, n => [n % 10]
  | fuel + 1, n => if n < 10 then [n] else natDigitsFuel fuel (n / 10) ++ [n % 10]

/-- Decimal digit values of `n`, most significant first — the digit
sequence printed by Rust's `Display for u32` in `format!("{}{}", ...)`. -/
def natDigits (n : Nat) : List Nat :=
  natDigitsFuel n n

/-- Decimal string of `n` (ASCII digits). -/
def natStr (n : Nat) : String :=
  ⟨(natDigits n).map (fun d => Char.ofNat (48 + d))⟩

/-- Value of a digit sequence (most significant first). -/
def digitsVal (l : List Nat) : Nat :=
  l.foldl (fun acc d => acc * 10 + d) 0

theorem digitsVal_natDigitsFuel (fuel : Nat) :
    ∀ n : Nat, n ≤ fuel → digitsVal (natDigitsFuel fuel n) = n := by
  induction fuel with
  | zero =>
    intro n hn
    interval_cases n
    rfl
  | succ fuel ih =>
    intro n hn
    unfold natDigitsFuel
    split
    · simp [digitsVal]
    · rename_i h
      have hd : n / 10 ≤ fuel := by omega
      have := ih (n / 10) hd
      simp only [digitsVal, List.foldl_append, List.foldl_cons, List.foldl_nil]
      simp only [digitsVal] at this
      rw [this]
      omega

theorem digitsVal_natDigits (n : Nat) : digitsVal (natDigits n) = n :=
  digitsVal_natDigitsFuel n n (le_refl n)

theorem natDigits_injective : Function.Injective natDigits := by
  intro a b h
  have := congrArg digitsVal h
  rwa [digitsVal_natDigits, digitsVal_natDigits] at this

theorem natDigitsFuel_lt_10 (fuel : Nat) :
    ∀ n : Nat, ∀ d ∈ natDigitsFuel fuel n, d < 10 := by
  induction fuel with
  | zero =>
    intro n d hd
    simp only [natDigitsFuel, List.mem_singleton] at hd
    omega
  | succ fuel ih =>
    intro n d hd
    unfold natDigitsFuel at hd
    split at hd
    · rename_i h
      simp at hd
      omega
    · rw [List.mem_append] at hd
      rcases hd with hd | hd
      · exact ih (n / 10) d hd
      · simp at hd
        omega

theorem natDigits_lt_10 (n : Nat) : ∀ d ∈ natDigits n, d < 10 :=
  natDigitsFuel_lt_10 n n

/-- `(Char.ofNat n).toNat = n` for valid code points. -/
theorem charToNat_ofNat (n : Nat) (h : n.isValidChar) :
    (Char.ofNat n).toNat = n := by
  unfold Char.ofNat
  rw [dif_pos h]
  rfl

/-- Digit characters: `Char.ofNat (48 + d)` is injective on digit values. -/
theorem mapDigitChar_inj : ∀ l1 l2 : List Nat, (∀ d ∈ l1, d < 10) →
    (∀ d ∈ l2, d < 10) →
    l1.map (fun d => Char.ofNat (48 + d)) = l2.map (fun d => Char.ofNat (48 + d)) →
    l1 = l2 := by
  intro l1
  induction l1 with
  | nil => intro l2 _ _ h; cases l2 <;> simp_all
  | cons x xs ih =>
    intro l2 h1 h2 h
    cases l2 with
    | nil => simp_all
    | cons y ys =>
      simp only [List.map_cons, List.cons.injEq] at h
      obtain ⟨hxy, hrest⟩ := h
      have hx : x < 10 := h1 x (by simp)
      have hy : y < 10 := h2 y (by simp)
      have hxv : (48 + x).isValidChar := Or.inl (by omega)
      have hyv : (48 + y).isValidChar := Or.inl (by omega)
      have : (48 : Nat) + x = 48 + y := by
        rw [← charToNat_ofNat _ hxv, ← charToNat_ofNat _ hyv, hxy]
      have hxy' : x = y := by omega
      subst hxy'
      rw [ih ys (fun d hd => h1 d (by simp [hd])) (fun d hd => h2 d (by simp [hd])) hrest]

theorem natStr_injective : Function.Injective natStr := by
  intro a b h
  apply natDigits_injective
  have hdata := congrArg String.data h
  simp only [natStr] at hdata
  exact mapDigitChar_inj _ _ (natDigits_lt_10 a) (natDigits_lt_10 b) hdata



/-- The registry state consulted by `register` (device.rs:178-181):
`alias_counters: HashMap<String, u32>` as an association list, plus the
insertion-ordered aliases of the `devices` map. -/
structure Registry where
  aliasCounters : List (String × Nat)
  aliases : List String

/-- `DeviceRegistry::new` (device.rs:185-190). -/
def Registry.empty : Registry := ⟨[], []⟩

/-- `self.alias_counters.entry(prefix).or_insert(0)` — current value. -/
def countersGet (m : List (String × Nat)) (k : String) : Nat :=
  ((m.find? (fun p => p.1 == k)).map Prod.snd).getD 0

/-- Store `v` under `k` (update in place, or append a fresh entry). -/
def countersSet : List (String × Nat) → String → Nat → List (String × Nat)
  | [], k, v => [(k, v)]
  | (k', v') :: rest, k, v =>
    if k' == k then (k', v) :: rest else (k', v') :: countersSet rest k v

/-- `register` (device.rs:195-235), restricted to the alias-assigning
state: compute the prefix, read the per-prefix counter (default 0), build
`format!("{}{}", prefix, counter)`, bump the counter, insert the device
under the alias. -/
def Registry.register (r : Registry) (boardName : String) : String × Registry :=
  let pfx := aliasPfx boardName
  let c := countersGet r.aliasCounters pfx
  let al := pfx ++ natStr c
  (al, ⟨countersSet r.aliasCounters pfx (c + 1), r.aliases ++ [al]⟩)

/-- Run a sequence of registrations, collecting the returned aliases. -/
def runRegister : Registry → List String → List String × Registry
  | r, [] => ([], r)
  | r, b :: rest =>
    let (al, r') := r.register b
    let (als, rF) := runRegister r' rest
    (al :: als, rF)

/-- The aliases the claim describes: each board's alias is its prefix
followed by the number of earlier registrations with the same prefix
(per-prefix counter starting at 0, incremented by 1). -/
def aliasesSpecAux (seen : List String) : List String → List String
  | [] => []
  | b :: rest =>
    let p := aliasPfx b
    (p ++ natStr (seen.count p)) :: aliasesSpecAux (seen ++ [p]) rest

/-- Claim-side alias sequence from an empty registry. -/
def aliasesSpec (boards : List String) : List String :=
  aliasesSpecAux [] boards

/-- The six possible alias prefixes. -/
def pfxList : List String := ["pico", "arduino", "esp", "nucleo", "rpi", "device"]

theorem aliasPfx_mem_pfxList (b : String) : aliasPfx b ∈ pfxList := by
  unfold aliasPfx pfxList
  split
  · simp
  · split
    · simp
    · split
      · simp
      · split
        · simp
        · split <;> simp

theorem countersGet_set_same (m : List (String × Nat)) (k : String) (v : Nat) :
    countersGet (countersSet m k v) k = v := by
  induction m with
  | nil => simp [countersSet, countersGet, List.find?]
  | cons p rest ih =>
    obtain ⟨k', v'⟩ := p
    by_cases h : k' = k
    · subst h
      simp [countersSet, countersGet, List.find?]
    · have hb : (k' == k) = false := by simpa using h
      simp only [countersSet, hb, Bool.false_eq_true, if_false]
      simpa [countersGet, List.find?, hb] using ih

theorem countersGet_set_other (m : List (String × Nat)) (k q : String) (v : Nat)
    (h : q ≠ k) : countersGet (countersSet m k v) q = countersGet m q := by
  induction m with
  | nil =>
    have hb : (k == q) = false := by simpa using (Ne.symm h)
    simp [countersSet, countersGet, List.find?, hb]
  | cons p rest ih =>
    obtain ⟨k', v'⟩ := p
    by_cases hk : k' = k
    · subst hk
      have hb : (k' == q) = false := by simpa using (Ne.symm h)
      simp [countersSet, countersGet, List.find?, hb]
    · have hb : (k' == k) = false := by simpa using hk
      simp only [countersSet, hb, Bool.false_eq_true, if_false]
      by_cases hq : k' = q
      · subst hq
        simp [countersGet, List.find?]
      · have hbq : (k' == q) = false := by simpa using hq
        simpa [countersGet, List.find?, hbq] using ih

/-- The registration run produces exactly the claim's alias sequence,
relative to a counter table agreeing with the prefixes seen so far. -/
theorem runRegister_spec (boards : List String) :
    ∀ (r : Registry) (seen : List String),
      (∀ p, countersGet r.aliasCounters p = seen.count p) →
      (runRegister r boards).1 = aliasesSpecAux seen boards := by
  induction boards with
  | nil => intro r seen _; rfl
  | cons b rest ih =>
    intro r seen hinv
    simp only [runRegister, Registry.register, aliasesSpecAux, hinv]
    refine congrArg _ (ih _ (seen ++ [aliasPfx b]) ?_)
    intro p
    by_cases hp : p = aliasPfx b
    · subst hp
      rw [countersGet_set_same]
      simp [List.count_append, List.count_cons]
    · rw [countersGet_set_other _ _ _ _ hp, hinv, List.count_append]
      have : [aliasPfx b].count p = 0 := by
        simp [List.count_cons, Ne.symm hp]
      omega


/-- Leading with a longer pattern implies leading with its first part. -/
theorem leadsWith_append (l p q : List Char)
    (h : leadsWith l (p ++ q) = true) : leadsWith l p = true := by
  induction p generalizing l with
  | nil => cases l <;> rfl
  | cons c cs ih =>
    cases l with
    | nil => simp [leadsWith] at h
    | cons d ds =>
      simp only [List.cons_append, leadsWith, Bool.and_eq_true] at h ⊢
      exact ⟨h.1, ih ds h.2⟩

/-- The source's prefix table equals the amended claim table. -/
theorem aliasPfx_eq_amended (b : String) : aliasPfx b = specAliasPfxAmended b := by
  have h13 : (leadsWithS b ("esp32") || leadsWithS b ("esp")) = leadsWithS b ("esp") := by
    cases hesp : leadsWithS b ("esp") with
    | true => simp
    | false =>
      cases h32 : leadsWithS b ("esp32") with
      | false => simp
      | true =>
        exfalso
        have hsplit : ("esp32" : String).data = ("esp" : String).data ++ ("32" : String).data := by
          decide
        have h32' : leadsWith b.data (("esp" : String).data ++ ("32" : String).data) = true := by
          rw [← hsplit]; exact h32
        rw [show leadsWithS b ("esp") = leadsWith b.data ("esp" : String).data from rfl,
          leadsWith_append _ _ _ h32'] at hesp
        cases hesp
  unfold aliasPfx specAliasPfxAmended
  rw [Bool.or_comm (leadsWithS b ("raspberry-pi-pico"))]
  rw [h13]

/-- Every member of the claim's alias sequence is a known prefix followed
by a counter at least the number of same-prefix registrations already
seen. -/
theorem mem_aliasesSpecAux (boards : List String) :
    ∀ (seen : List String) (a : String), a ∈ aliasesSpecAux seen boards →
      ∃ p c, p ∈ pfxList ∧ a = p ++ natStr c ∧ seen.count p ≤ c := by
  induction boards with
  | nil => intro seen a ha; simp [aliasesSpecAux] at ha
  | cons b rest ih =>
    intro seen a ha
    simp only [aliasesSpecAux, List.mem_cons] at ha
    rcases ha with ha | ha
    · exact ⟨aliasPfx b, seen.count (aliasPfx b), aliasPfx_mem_pfxList b, ha, le_refl _⟩
    · obtain ⟨p, c, hp, hac, hcount⟩ := ih (seen ++ [aliasPfx b]) a ha
      refine ⟨p, c, hp, hac, ?_⟩
      rw [List.count_append] at hcount
      omega

/-- Distinct known prefixes start with distinct characters. -/
theorem pfxList_heads_distinct :
    ∀ p1 ∈ pfxList, ∀ p2 ∈ pfxList, p1 ≠ p2 → p1.data.head? ≠ p2.data.head? := by
  decide

/-- Known prefixes are nonempty. -/
theorem pfxList_ne_nil : ∀ p ∈ pfxList, p.data ≠ [] := by
  decide

/-- An alias determines its prefix (within the table) and its counter. -/
theorem alias_eq_parts (p1 p2 : String) (c1 c2 : Nat)
    (h1 : p1 ∈ pfxList) (h2 : p2 ∈ pfxList)
    (h : p1 ++ natStr c1 = p2 ++ natStr c2) : p1 = p2 ∧ c1 = c2 := by
  have hdata : p1.data ++ (natStr c1).data = p2.data ++ (natStr c2).data := by
    have := congrArg String.data h
    simpa using this
  have hp : p1 = p2 := by
    by_contra hne
    have hh := pfxList_heads_distinct p1 h1 p2 h2 hne
    apply hh
    have e1 : (p1.data ++ (natStr c1).data).head? = p1.data.head? :=
      List.head?_append_of_ne_nil _ (pfxList_ne_nil p1 h1)
    have e2 : (p2.data ++ (natStr c2).data).head? = p2.data.head? :=
      List.head?_append_of_ne_nil _ (pfxList_ne_nil p2 h2)
    rw [← e1, ← e2, hdata]
  subst hp
  refine ⟨rfl, natStr_injective ?_⟩
  have := List.append_cancel_left hdata
  exact String.ext this

/-- The claim's alias sequence has no duplicates. -/
theorem aliasesSpecAux_nodup (boards : List String) :
    ∀ seen : List String, (aliasesSpecAux seen boards).Nodup := by
  induction boards with
  | nil => intro seen; simp [aliasesSpecAux]
  | cons b rest ih =>
    intro seen
    simp only [aliasesSpecAux, List.nodup_cons]
    refine ⟨?_, ih _⟩
    intro hmem
    obtain ⟨p, c, hp, hac, hcount⟩ := mem_aliasesSpecAux rest _ _ hmem
    obtain ⟨hpp, hcc⟩ := alias_eq_parts (aliasPfx b) p (seen.count (aliasPfx b)) c
      (aliasPfx_mem_pfxList b) hp hac
    subst hpp
    rw [← hcc] at hcount
    rw [List.count_append] at hcount
    simp [List.count_cons] at hcount

/-- C8 (amended): the alias prefix table is the claim's table extended
with `raspberry-pi-pico* ⇒ pico`; registration returns
`prefix ++ counter` with the per-prefix counter equal to the number of
earlier same-prefix registrations (starting at 0, +1 each time); and all
aliases ever returned by a registry are pairwise distinct. -/
theorem claim_C8 :
    (∀ b : String, aliasPfx b = specAliasPfxAmended b)
    ∧ (∀ boards : List String,
        (runRegister Registry.empty boards).1 = aliasesSpec boards)
    ∧ (∀ boards : List String, (runRegister Registry.empty boards).1.Nodup) := by
  have hrun : ∀ boards : List String,
      (runRegister Registry.empty boards).1 = aliasesSpec boards := by
    intro boards
    exact runRegister_spec boards Registry.empty [] (fun p => rfl)
  refine ⟨aliasPfx_eq_amended, hrun, ?_⟩
  intro boards
  rw [hrun]
  exact aliasesSpecAux_nodup boards []

/-- C8 counterexample: the code maps `raspberry-pi-pico` to the `pico`
prefix (alias `pico0`), while the claim's table sends it to `device`. -/
theorem claim_C8_counterexample :
    (runRegister Registry.empty ["raspberry-pi-pico"]).1 = ["pico0"]
    ∧ specAliasPfxClaim "raspberry-pi-pico" = "device"
    ∧ aliasPfx "raspberry-pi-pico" ≠ specAliasPfxClaim "raspberry-pi-pico" := by
  exact ⟨by decide, by decide, by decide⟩


/-! ## OpenAI-compatible intake (`src/gateway/openclaw_compat.rs`) — claim C4 -/

/-- Count of occurrences of `needle` (as starting positions) in `hay`. -/
def countSub (hay needle : List Char) : Nat :=
  (if leadsWith hay needle then 1 else 0) +
    match hay with
    | [] => 0
    | _ :: t => countSub t needle

/-- String-level occurrence count. -/
def strCount (hay needle : String) : Nat :=
  countSub hay.data needle.data

/-- Rust `char::is_whitespace` (the Unicode `White_Space` property). -/
def rustIsWhitespace (c : Char) : Bool :=
  [0x0009, 0x000a, 0x000b, 0x000c, 0x000d, 0x0020, 0x0085, 0x00a0, 0x1680,
    0x2000, 0x2001, 0x2002, 0x2003, 0x2004, 0x2005, 0x2006, 0x2007, 0x2008,
    0x2009, 0x200a, 0x2028, 0x2029, 0x202f, 0x205f, 0x3000].contains c.toNat

/-- Rust `str::trim` on char lists. -/
def trimChars (l : List Char) : List Char :=
  ((l.dropWhile rustIsWhitespace).reverse.dropWhile rustIsWhitespace).reverse

/-- Rust `str::trim`. -/
def rustTrim (s : String) : String :=
  ⟨trimChars s.data⟩

/-- A chat message of the OpenAI-compatible body (openclaw_compat.rs). -/
structure ChatMsg where
  role : String
  content : String
deriving DecidableEq

/-- `MAX_CONTEXT_MESSAGES` (openclaw_compat.rs:266). -/
def MAX_CONTEXT_MESSAGES : Nat := 10

/-- The subject: content of the last message with role `user`
(openclaw_compat.rs:458-463). -/
def lastUserMsg (msgs : List ChatMsg) : Option String :=
  (msgs.reverse.find? (fun m => m.role == "user")).map (fun m => m.content)

/-- `"User: <content>"` / `"Assistant: <content>"` formatting
(openclaw_compat.rs:487-493). -/
def fmtCtx (m : ChatMsg) : String :=
  (if m.role == "user" then "User" else "Assistant") ++ ": " ++ m.content

/-- Context lines (openclaw_compat.rs:480-495): all but the **physically
last** array element (`.rev().skip(1).rev()`), filtered to user/assistant
roles, formatted. -/
def contextMessages (msgs : List ChatMsg) : List String :=
  (msgs.dropLast.filter (fun m => m.role == "user" || m.role == "assistant")).map fmtCtx

/-- Enriched message (openclaw_compat.rs:497-515): the subject verbatim
when no context lines exist, else the last 10 context lines joined by
newlines inside the fixed template. -/
def enrichedMessage (msgs : List ChatMsg) (message : String) : String :=
  let ctx := contextMessages msgs
  if ctx.isEmpty then message
  else
    let recent := (ctx.reverse.take MAX_CONTEXT_MESSAGES).reverse
    "Recent conversation context:\n" ++ String.intercalate "\n" recent ++
      "\n\nCurrent message:\n" ++ message

/-- The accepting path of the handler (openclaw_compat.rs:446-515):
reject empty arrays, missing user message, or whitespace-only subject;
otherwise produce `(subject, enriched message)`. -/
def handleMessages (msgs : List ChatMsg) : Option (String × String) :=
  if msgs.isEmpty then none
  else
    match lastUserMsg msgs with
    | none => none
    | some m =>
      if (rustTrim m).data.isEmpty then none
      else some (m, enrichedMessage msgs m)

/-- Remove the first element with role `user` (helper for the claim's
reading, which excludes the subject from the context). -/
def dropFirstUser : List ChatMsg → List ChatMsg
  | [] => []
  | m :: rest => if m.role == "user" then rest else m :: dropFirstUser rest

/-- Remove the **last** user message (the subject) from the array. -/
def removeLastUser (msgs : List ChatMsg) : List ChatMsg :=
  (dropFirstUser msgs.reverse).reverse

/-- The enrichment the claim describes (frozen form): context built from
the user/assistant messages **excluding the subject message itself**,
limited to the last 10. -/
def specEnrichedClaim (msgs : List ChatMsg) (message : String) : String :=
  let ctx := ((removeLastUser msgs).filter
    (fun m => m.role == "user" || m.role == "assistant")).map fmtCtx
  if ctx.isEmpty then message
  else
    let recent := (ctx.reverse.take MAX_CONTEXT_MESSAGES).reverse
    "Recent conversation context:\n" ++ String.intercalate "\n" recent ++
      "\n\nCurrent message:\n" ++ message

/-- The enrichment as amended: context built from the user/assistant
messages among all but the **physically last** array element (so the
subject is excluded exactly when it is the final element), as the
rightmost 10 of the filtered lines (`drop (len - 10)`). -/
def specEnrichedAmended (msgs : List ChatMsg) (message : String) : String :=
  let ctx := (msgs.dropLast.filter
    (fun m => m.role == "user" || m.role == "assistant")).map fmtCtx
  if ctx.isEmpty then message
  else
    let recent := ctx.drop (ctx.length - MAX_CONTEXT_MESSAGES)
    "Recent conversation context:\n" ++ String.intercalate "\n" recent ++
      "\n\nCurrent message:\n" ++ message

/-- Rightmost `n` elements: `reverse ∘ take n ∘ reverse` is `drop (len - n)`. -/
theorem reverse_take_reverse (l : List String) (n : Nat) :
    (l.reverse.take n).reverse = l.drop (l.length - n) := by
  rw [List.reverse_take]
  simp

/-- The code's enrichment agrees with the amended description. -/
theorem enrichedMessage_eq_amended (msgs : List ChatMsg) (message : String) :
    enrichedMessage msgs message = specEnrichedAmended msgs message := by
  simp only [enrichedMessage, specEnrichedAmended, contextMessages,
    reverse_take_reverse]

/-- The four-message counterexample input: a trailing assistant message
makes the subject not the physically last element. -/
def ctrailMsgs : List ChatMsg :=
  [⟨"user", "first"⟩, ⟨"assistant", "reply"⟩, ⟨"user", "second"⟩,
    ⟨"assistant", "trail"⟩]

/-- C4 counterexample: with a trailing assistant message the subject is
still `"second"`, but the code's context block **does** contain
`"User: second"` (the subject is not excluded — only the physically last
element is), while the claim's enrichment contains no `"User: second"`;
the two enrichments differ. -/
theorem claim_C4_counterexample :
    ((handleMessages ctrailMsgs).map Prod.fst) = some "second"
    ∧ ((handleMessages ctrailMsgs).map
        (fun r => strContains r.2 ("User: second"))) = some true
    ∧ strContains (specEnrichedClaim ctrailMsgs "second") ("User: second") = false
    ∧ ((handleMessages ctrailMsgs).map Prod.snd) ≠
        some (specEnrichedClaim ctrailMsgs "second") := by
  exact ⟨by decide, by decide, by decide, by decide⟩

/-- The three-message example input from the claim. -/
def cexampleMsgs : List ChatMsg :=
  [⟨"user", "first"⟩, ⟨"assistant", "reply"⟩, ⟨"user", "second"⟩]

/-- The context block of the three-message example. -/
def cexampleBlock : String := "User: first\nAssistant: reply"

/-- C4 (amended): every accepted messages array yields the last user
message as subject and the enriched message built from the user/assistant
lines among all but the physically last element (last 10, fixed
template, subject verbatim when no context); on the claim's
`[user first, assistant reply, user second]` example the context block is
exactly `"User: first\nAssistant: reply"` — containing each line exactly
once and not containing `"second"`. -/
theorem claim_C4 :
    (∀ (msgs : List ChatMsg) (m enriched : String),
        handleMessages msgs = some (m, enriched) →
        lastUserMsg msgs = some m ∧ enriched = specEnrichedAmended msgs m)
    ∧ handleMessages cexampleMsgs =
        some ("second", "Recent conversation context:\n" ++ cexampleBlock ++
          "\n\nCurrent message:\nsecond")
    ∧ strCount cexampleBlock ("User: first") = 1
    ∧ strCount cexampleBlock ("Assistant: reply") = 1
    ∧ strContains cexampleBlock ("second") = false := by
  refine ⟨?_, by decide, by decide, by decide, by decide⟩
  intro msgs m enriched h
  unfold handleMessages at h
  split at h
  · simp at h
  · cases hl : lastUserMsg msgs with
    | none => rw [hl] at h; simp at h
    | some m' =>
      rw [hl] at h
      simp only [] at h
      split at h
      · exact Option.noConfusion h
      · simp only [Option.some.injEq, Prod.mk.injEq] at h
        obtain ⟨hm, he⟩ := h
        subst hm
        exact ⟨rfl, he.symm.trans (enrichedMessage_eq_amended msgs m')⟩

/-- Witness for C4's conditional part at the example input. -/
theorem claim_C4_witness :
    lastUserMsg cexampleMsgs = some "second"
    ∧ ("Recent conversation context:\n" ++ cexampleBlock ++
        "\n\nCurrent message:\nsecond") = specEnrichedAmended cexampleMsgs "second" :=
  claim_C4.1 cexampleMsgs "second" _ (by decide)


/-! ## Tool results, wire protocol, JSON model (claims C9, C10) -/

/-- `ToolResult` (tools/traits.rs, as used across the repo). -/
structure ToolResult where
  success : Bool
  output : String
  error : Option String
deriving DecidableEq

/-- A minimal model of `serde_json::Value` for the arguments and wire
payloads exercised by the claims (numbers restricted to integers — the
claims use only small non-negative integers). -/
inductive Json where
  | null : Json
  | bool : Bool → Json
  | num : Int → Json
  | str : String → Json
  | arr : List Json → Json
  | obj : List (String × Json) → Json

/-- `Value::get(key)` on objects. -/
def Json.get (j : Json) (k : String) : Option Json :=
  match j with
  | .obj fields => (fields.find? (fun p => p.1 == k)).map (fun p => p.2)
  | _ => none

/-- `Value::as_u64`. -/
def Json.asU64 : Json → Option Nat
  | .num n => if 0 ≤ n then some n.toNat else none
  | _ => none

/-- `Value::as_str`. -/
def Json.asStr : Json → Option String
  | .str s => some s
  | _ => none

/-- `ZcCommand` (hardware/protocol.rs): `{cmd, params}`. -/
structure ZcCommand where
  cmd : String
  params : Json

/-- `ZcResponse` (hardware/protocol.rs): `{ok, data, error}`. -/
structure ZcResponse where
  ok : Bool
  data : Json
  error : Option String

/-- Modelled from the spec: transport errors of the `Transport` trait
(`transport.rs` is not under src/): `Disconnected`, `Timeout`, `Io`,
`Protocol` (malformed response). -/
inductive TransportError where
  | Disconnected : TransportError
  | Timeout : TransportError
  | Io : String → TransportError
  | Protocol : String → TransportError

/-! ## Subprocess plugin runtime (`src/hardware/subprocess.rs`) — claim C9 -/

/-- `SUBPROCESS_TIMEOUT_SECS` (subprocess.rs:29). -/
def SUBPROCESS_TIMEOUT_SECS : Nat := 10

/-- The bytes captured by `collect_stderr` (subprocess.rs:298-310): one
`read` into a 512-byte buffer — at most the first 512 available bytes.
(The `from_utf8_lossy(..).trim()` decoding to the final string is std
library code; the resulting string enters `executeFromRead` as
`stderrMsg`.) -/
def collectStderrBytes (avail : List Nat) : List Nat :=
  avail.take 512

/-- The stderr suffix appended to error texts (subprocess.rs:195-199 and
the parallel arms): empty when stderr was empty, else `"; stderr: <text>"`. -/
def stderrSuffix (stderrMsg : String) : String :=
  if stderrMsg.data.isEmpty then "" else "; stderr: " ++ stderrMsg

/-- The timeout error text (subprocess.rs:191-200):
`plugin '<name>' timed out after 10s[; stderr: …]`. -/
def timeoutErrorText (name stderrMsg : String) : String :=
  "plugin '" ++ name ++ ("' timed out after " ++ natStr SUBPROCESS_TIMEOUT_SECS ++
    "s" ++ stderrSuffix stderrMsg)

/-- Outcome of the one-line stdout read under the 10-second deadline
(subprocess.rs:155-178): deadline elapsed, I/O error, or a line. -/
inductive ReadOutcome where
  | timedOut : ReadOutcome
  | ioErr : String → ReadOutcome
  | gotLine : String → ReadOutcome

/-- Character-boundary truncation of an unparseable stdout echo
(subprocess.rs:280-288). -/
def truncEcho (line : String) : String :=
  if line.data.length > 200 then String.mk (line.data.take 200) ++ "..." else line

/-- The dispatch on the read result (subprocess.rs:180-293).  I/O-level
inputs are parameters: `exit` is the child's exit status (`none` when
`wait()` failed; the paired string is its std `Display`), `parse` stands
for `serde_json::from_str::<ToolResult>` (external crate; an `Except`
carrying serde's error text), `dbg` for std's `Debug` quoting of the
echoed line, and `stderrMsg` for the decoded stderr capture.  Every arm
yields `Except.ok`; the `Err` variant of the surrounding `Result` is
reserved for spawn/stdin failures earlier in `execute`. -/
def executeFromRead (name : String) (outcome : ReadOutcome)
    (exit : Option (Bool × String)) (parse : String → Except String ToolResult)
    (dbg : String → String) (stderrMsg : String) : Except String ToolResult :=
  match outcome with
  | .timedOut =>
    .ok ⟨false, "", some (timeoutErrorText name stderrMsg)⟩
  | .ioErr e =>
    .ok ⟨false, "", some ("plugin '" ++ name ++ ("': I/O error reading stdout: " ++
      e ++ stderrSuffix stderrMsg))⟩
  | .gotLine rawLine =>
    let line := rustTrim rawLine
    if line.data.isEmpty then
      .ok ⟨false, "", some ("plugin '" ++ name ++ ("': empty stdout" ++
        stderrSuffix stderrMsg))⟩
    else
      match parse line with
      | .ok result =>
        match exit with
        | some (false, statusDisp) =>
          .ok ⟨false, "", some ("plugin '" ++ name ++ ("' exited with " ++
            statusDisp ++ stderrSuffix stderrMsg))⟩
        | _ => .ok result
      | .error parseErr =>
        .ok ⟨false, "", some ("plugin '" ++ name ++ ("': failed to parse output as ToolResult: " ++
          parseErr ++ " (got: " ++ dbg (truncEcho line) ++ ")"))⟩

/-- C9: on a read deadline, `execute` returns `Ok` (not `Err`) with
`success = false`, empty output, and exactly the error text
`plugin '<name>' timed out after 10s` with `; stderr: <text>` appended
iff stderr was non-empty; and the stderr capture is at most 512 bytes. -/
theorem claim_C9 :
    (∀ (name stderrMsg : String) (exit : Option (Bool × String))
        (parse : String → Except String ToolResult) (dbg : String → String),
        executeFromRead name .timedOut exit parse dbg stderrMsg =
          .ok ⟨false, "", some ("plugin '" ++ name ++
            ("' timed out after 10s" ++ stderrSuffix stderrMsg))⟩)
    ∧ (∀ avail : List Nat, (collectStderrBytes avail).length ≤ 512) := by
  constructor
  · intro name stderrMsg exit parse dbg
    have h10 : ("' timed out after " ++ natStr SUBPROCESS_TIMEOUT_SECS ++ "s") =
        "' timed out after 10s" := by decide
    simp only [executeFromRead, timeoutErrorText]
    rw [← h10]
  · intro avail
    simp only [collectStderrBytes, List.length_take]
    omega

/-! ## GPIO write tool (`src/hardware/gpio.rs`) — claim C10 -/

/-- A registry entry as `resolve_gpio_device` consumes it: the optional
transport (embedded as a pure send function) and the `gpio` capability
flag. -/
structure HwEntry where
  transport : Option (ZcCommand → Except TransportError ZcResponse)
  gpio : Bool

/-- The registry's device map as an ordered association list (HashMap
iteration order is unspecified in the source; only membership and the
single-candidate case matter to the claims). -/
structure HwRegistry where
  entries : List (String × HwEntry)

/-- `context(alias)` (device.rs:264-272): `some` iff the alias exists and
a transport is attached. -/
def HwRegistry.context (r : HwRegistry) (al : String) :
    Option ((ZcCommand → Except TransportError ZcResponse) × Bool) :=
  (r.entries.find? (fun p => p.1 == al)).bind
    (fun p => p.2.transport.map (fun t => (t, p.2.gpio)))

/-- `resolve_gpio_device` (device.rs:322-373). -/
def HwRegistry.resolveGpio (r : HwRegistry) (args : Json) :
    Except String (String × (ZcCommand → Except TransportError ZcResponse) × Bool) :=
  let deviceAlias : Except String String :=
    match (args.get "device").bind Json.asStr with
    | some a => .ok a
    | none =>
      let gpioAliases := (r.entries.map (fun p => p.1)).filter
        (fun a => ((r.context a).map (fun c => c.2)).getD false)
      match gpioAliases with
      | [single] => .ok single
      | [] => .error "no GPIO-capable device found; specify \"device\" parameter"
      | _ => .error ("multiple devices available (" ++
          String.intercalate ", " gpioAliases ++ "); specify \"device\" parameter")
  deviceAlias.bind (fun al =>
    match r.context al with
    | none => .error ("device '" ++ al ++ "' not found or has no transport attached")
    | some ctx =>
      if !ctx.2 then
        .error ("device '" ++ al ++ "' does not support GPIO; specify a GPIO-capable device")
      else .ok (al, ctx))

/-- Modelled from the spec: the `Display` text of a transport error as it
reaches `format!("transport error: {e}")` (the `Display` impl lives in
`transport.rs`, which is not under src/). -/
def TransportError.display : TransportError → String
  | .Disconnected => "device disconnected"
  | .Timeout => "operation timed out"
  | .Io m => m
  | .Protocol m => m

/-- `GpioWriteTool::execute` (gpio.rs:76-148).  Returns the `ToolResult`
paired with the list of commands handed to the transport (empty when
validation fails before `send`). -/
def executeGpioWrite (r : HwRegistry) (args : Json) : ToolResult × List ZcCommand :=
  match (args.get "pin").bind Json.asU64 with
  | none => (⟨false, "", some "missing required parameter: pin"⟩, [])
  | some pin =>
    match (args.get "value").bind Json.asU64 with
    | none => (⟨false, "", some "missing required parameter: value"⟩, [])
    | some value =>
      if value > 1 then
        (⟨false, "", some "value must be 0 or 1"⟩, [])
      else
        match r.resolveGpio args with
        | .error msg => (⟨false, "", some msg⟩, [])
        | .ok (deviceAlias, t, _caps) =>
          let cmd : ZcCommand :=
            ⟨"gpio_write", Json.obj [("pin", .num pin), ("value", .num value)]⟩
          match t cmd with
          | .ok resp =>
            if resp.ok then
              let state := ((resp.data.get "state").bind Json.asStr).getD
                (if value == 1 then "HIGH" else "LOW")
              (⟨true, "GPIO " ++ natStr pin ++ (" set " ++ state ++ (" on " ++
                deviceAlias)), none⟩, [cmd])
            else
              (⟨false, "", some (resp.error.getD "device returned ok:false")⟩, [cmd])
          | .error e =>
            (⟨false, "", some ("transport error: " ++ e.display)⟩, [cmd])

/-- The claim's mock transport: always answers
`{ok:true, data:{pin:25, value:1, state:"HIGH"}}`. -/
def mockHighTransport : ZcCommand → Except TransportError ZcResponse :=
  fun _ => .ok ⟨true, Json.obj [("pin", .num 25), ("value", .num 1),
    ("state", .str "HIGH")], none⟩

/-- Registry holding GPIO-capable `pico0` with the mock transport. -/
def picoRegistry : HwRegistry :=
  ⟨[("pico0", ⟨some mockHighTransport, true⟩)]⟩

/-- C10: on the mock registry, `gpio_write {device:"pico0",pin:25,value:1}`
succeeds with output exactly `"GPIO 25 set HIGH on pico0"`, no error, and
the transport received exactly `cmd "gpio_write"`,
`params {"pin":25,"value":1}`; a missing `pin` or `value` yields the
verbatim missing-parameter errors, and `value = 5` yields
`"value must be 0 or 1"` — all without consulting the transport. -/
theorem claim_C10 :
    executeGpioWrite picoRegistry
        (.obj [("device", .str "pico0"), ("pin", .num 25), ("value", .num 1)]) =
      (⟨true, "GPIO 25 set HIGH on pico0", none⟩,
        [⟨"gpio_write", Json.obj [("pin", .num 25), ("value", .num 1)]⟩])
    ∧ executeGpioWrite picoRegistry
        (.obj [("device", .str "pico0"), ("value", .num 1)]) =
      (⟨false, "", some "missing required parameter: pin"⟩, [])
    ∧ executeGpioWrite picoRegistry
        (.obj [("device", .str "pico0"), ("pin", .num 25)]) =
      (⟨false, "", some "missing required parameter: value"⟩, [])
    ∧ executeGpioWrite picoRegistry
        (.obj [("device", .str "pico0"), ("pin", .num 25), ("value", .num 5)]) =
      (⟨false, "", some "value must be 0 or 1"⟩, []) := by
  refine ⟨?_, rfl, rfl, rfl⟩
  rfl


/-! ## Hybrid memory (`src/memory/hybrid.rs`) — claims C5, C6

The two backends (`SqliteMemory`, the Qdrant client) live outside src/;
`hybridRecall` is parameterized over their `recall`/`get` operations
(`Except String` embeds `anyhow::Result`).  `MemoryEntry.score` is an
`f64` in the source; it is only ever copied (never computed with), so it
is embedded as `Option Nat`.  `MemoryCategory` is embedded as its tag
string, as it is only cloned. -/

/-- `MemoryEntry` (memory/traits.rs shape used by hybrid.rs). -/
structure MemoryEntry where
  id : String
  key : String
  content : String
  category : String
  timestamp : String
  sessionId : Option String
  score : Option Nat
deriving DecidableEq

/-- One authoritative `get` lookup: `Except` error, or the optional row. -/
abbrev MemGet := String → Except String (Option MemoryEntry)

/-- A `recall(query, limit, session)` operation. -/
abbrev MemRecall := String → Nat → Option String → Except String (List MemoryEntry)

/-- The candidate-merge loop (hybrid.rs:82-114): dedupe by key via the
`seen_keys` set (keys stay seen even when skipped), load the
authoritative row, apply the session filter, overwrite the score with the
candidate's, and stop as soon as `limit` rows have been merged. -/
def mergeLoop (sqliteGet : MemGet) (sessionId : Option String) (limit : Nat) :
    List MemoryEntry → List String → List MemoryEntry → List MemoryEntry
  | [], _, merged => merged
  | c :: rest, seenKeys, merged =>
    if seenKeys.contains c.key then
      mergeLoop sqliteGet sessionId limit rest seenKeys merged
    else
      let seenKeys' := c.key :: seenKeys
      match sqliteGet c.key with
      | .ok (some entry) =>
        match sessionId with
        | some sid =>
          if entry.sessionId != some sid then
            mergeLoop sqliteGet sessionId limit rest seenKeys' merged
          else
            let merged' := merged ++ [{ entry with score := c.score }]
            if limit ≤ merged'.length then merged'
            else mergeLoop sqliteGet sessionId limit rest seenKeys' merged'
        | none =>
          let merged' := merged ++ [{ entry with score := c.score }]
          if limit ≤ merged'.length then merged'
          else mergeLoop sqliteGet sessionId limit rest seenKeys' merged'
      | .ok none => mergeLoop sqliteGet sessionId limit rest seenKeys' merged
      | .error _ => mergeLoop sqliteGet sessionId limit rest seenKeys' merged

/-- `SqliteQdrantHybridMemory::recall` (hybrid.rs:51-121). -/
def hybridRecall (sqliteRecall : MemRecall) (sqliteGet : MemGet)
    (qdrantRecall : MemRecall) (query : String) (limit : Nat)
    (sessionId : Option String) : Except String (List MemoryEntry) :=
  let trimmedQuery := rustTrim query
  if trimmedQuery.data.isEmpty then sqliteRecall query limit sessionId
  else
    match qdrantRecall trimmedQuery ((max limit 1) * 3) sessionId with
    | .error _ => sqliteRecall trimmedQuery limit sessionId
    | .ok candidates =>
      if candidates.isEmpty then sqliteRecall trimmedQuery limit sessionId
      else
        let merged := mergeLoop sqliteGet sessionId limit candidates [] []
        if merged.isEmpty then sqliteRecall trimmedQuery limit sessionId
        else .ok merged

/-- The recall algorithm exactly as the claim words it (frozen form):
`max(1, limit*3)` candidates requested, and the merged list returned
as-is on the semantic path — no fallback when the merge ends empty. -/
def specHybridRecallClaim (sqliteRecall : MemRecall) (sqliteGet : MemGet)
    (qdrantRecall : MemRecall) (query : String) (limit : Nat)
    (sessionId : Option String) : Except String (List MemoryEntry) :=
  let trimmedQuery := rustTrim query
  if trimmedQuery.data.isEmpty then sqliteRecall query limit sessionId
  else
    match qdrantRecall trimmedQuery (max 1 (limit * 3)) sessionId with
    | .error _ => sqliteRecall trimmedQuery limit sessionId
    | .ok candidates =>
      if candidates.isEmpty then sqliteRecall trimmedQuery limit sessionId
      else .ok (mergeLoop sqliteGet sessionId limit candidates [] [])

/-- The recall algorithm as amended: `3 * max(1, limit)` candidates
requested, and a final fallback to authoritative recall when the merge
produces no entries. -/
def specHybridRecallAmended (sqliteRecall : MemRecall) (sqliteGet : MemGet)
    (qdrantRecall : MemRecall) (query : String) (limit : Nat)
    (sessionId : Option String) : Except String (List MemoryEntry) :=
  let trimmedQuery := rustTrim query
  if trimmedQuery.data.isEmpty then sqliteRecall query limit sessionId
  else
    match qdrantRecall trimmedQuery (3 * max 1 limit) sessionId with
    | .error _ => sqliteRecall trimmedQuery limit sessionId
    | .ok candidates =>
      if candidates.isEmpty then sqliteRecall trimmedQuery limit sessionId
      else
        let merged := mergeLoop sqliteGet sessionId limit candidates [] []
        if merged.isEmpty then sqliteRecall trimmedQuery limit sessionId
        else .ok merged

/-- Authoritative rows of the counterexample scenarios. -/
def topicEntry : MemoryEntry :=
  ⟨"id-topic", "topic", "hybrid fallback should still find this", "Core",
    "2026-01-01T00:00:00Z", none, none⟩

/-- An authoritative row `a`. -/
def aEntry : MemoryEntry :=
  ⟨"id-a", "a", "alpha from sqlite", "Core", "2026-01-01T00:00:00Z", none, none⟩

/-- A semantic candidate whose key is absent authoritatively. -/
def ghostCand : MemoryEntry :=
  ⟨"vec-ghost", "ghost", "vector payload", "Core", "2026-01-01T00:00:00Z",
    none, some 9⟩

/-- A semantic candidate for key `a` carrying score 7. -/
def aCand : MemoryEntry :=
  ⟨"vec-a", "a", "vector payload", "Core", "2026-01-01T00:00:00Z", none, some 7⟩

/-- Authoritative store of scenario 1: only `topic`. -/
def sqGet1 : MemGet :=
  fun k => .ok (if k == "topic" then some topicEntry else none)

/-- Authoritative recall of scenario 1: always finds `topic`. -/
def sqRecall1 : MemRecall := fun _ _ _ => .ok [topicEntry]

/-- Semantic index of scenario 1: one stale candidate (`ghost`). -/
def qd1 : MemRecall := fun _ _ _ => .ok [ghostCand]

/-- Authoritative store of scenario 2: only `a`. -/
def sqGet2 : MemGet :=
  fun k => .ok (if k == "a" then some aEntry else none)

/-- Authoritative recall of scenario 2: empty. -/
def sqRecall2 : MemRecall := fun _ _ _ => .ok []

/-- Semantic index of scenario 2: answers only when asked for exactly 3
candidates — separating the code's `max(limit,1)*3` from the claim's
`max(1, limit*3)` at `limit = 0`. -/
def qd2 : MemRecall :=
  fun _ lim _ => .ok (if lim == 3 then [aCand] else [])

/-- C5 counterexample: (scenario 1) with a non-empty candidate list whose
only key is authoritatively absent, the code falls back to authoritative
recall (returning `topic`) whereas the claim's algorithm returns the
empty merge; (scenario 2) at `limit = 0` the code requests
`max(0,1)*3 = 3` candidates (merging one entry) whereas the claim's
`max(1, 0*3) = 1` request finds none and falls back to the empty
authoritative recall. -/
theorem claim_C5_counterexample :
    hybridRecall sqRecall1 sqGet1 qd1 "fallback" 5 none = .ok [topicEntry]
    ∧ specHybridRecallClaim sqRecall1 sqGet1 qd1 "fallback" 5 none = .ok []
    ∧ (.ok [topicEntry] : Except String (List MemoryEntry)) ≠ .ok []
    ∧ hybridRecall sqRecall2 sqGet2 qd2 "alpha" 0 none =
        .ok [{ aEntry with score := some 7 }]
    ∧ specHybridRecallClaim sqRecall2 sqGet2 qd2 "alpha" 0 none = .ok [] := by
  exact ⟨rfl, rfl, fun h => List.noConfusion (Except.ok.inj h), rfl, rfl⟩

/-- C5 (amended): hybrid recall behaves exactly as the claim's algorithm
with the two corrections — the semantic index is asked for
`3 * max(1, limit)` candidates, and an empty merge also falls back to the
authoritative recall. -/
theorem claim_C5 (sqliteRecall : MemRecall) (sqliteGet : MemGet)
    (qdrantRecall : MemRecall) (query : String) (limit : Nat)
    (sessionId : Option String) :
    hybridRecall sqliteRecall sqliteGet qdrantRecall query limit sessionId =
      specHybridRecallAmended sqliteRecall sqliteGet qdrantRecall query limit
        sessionId := by
  unfold hybridRecall specHybridRecallAmended
  rw [Nat.mul_comm, Nat.max_comm]


/-- Authoritative consistency of a returned entry: its key is present in
the authoritative store (via `get`) and its content is the authoritative
row's content. -/
def AuthConsistent (sqliteGet : MemGet) (e : MemoryEntry) : Prop :=
  ∃ row, sqliteGet e.key = .ok (some row) ∧ e.content = row.content

/-- Every entry the merge loop adds comes from an authoritative `get`
(with only its score overwritten), so the loop preserves authoritative
consistency of its accumulator. -/
theorem mergeLoop_auth (sqliteGet : MemGet)
    (hget : ∀ k row, sqliteGet k = .ok (some row) → row.key = k)
    (sessionId : Option String) (limit : Nat) :
    ∀ (candidates : List MemoryEntry) (seen : List String)
      (merged : List MemoryEntry),
      (∀ e ∈ merged, AuthConsistent sqliteGet e) →
      ∀ e ∈ mergeLoop sqliteGet sessionId limit candidates seen merged,
        AuthConsistent sqliteGet e := by
  intro candidates
  induction candidates with
  | nil => intro seen merged hm e he; exact hm e he
  | cons c rest ih =>
    intro seen merged hm e he
    simp only [mergeLoop] at he
    split at he
    · exact ih seen merged hm e he
    · have hpush : ∀ entry : MemoryEntry,
          sqliteGet c.key = .ok (some entry) →
          ∀ x ∈ merged ++ [{ entry with score := c.score }],
            AuthConsistent sqliteGet x := by
        intro entry hentry x hx
        rw [List.mem_append] at hx
        rcases hx with hx | hx
        · exact hm x hx
        · rw [List.mem_singleton] at hx
          subst hx
          refine ⟨entry, ?_, rfl⟩
          have hk : entry.key = c.key := hget c.key entry hentry
          show sqliteGet ({ entry with score := c.score } : MemoryEntry).key =
            .ok (some entry)
          rw [show ({ entry with score := c.score } : MemoryEntry).key =
            entry.key from rfl, hk]
          exact hentry
      cases hcall : sqliteGet c.key with
      | error err =>
        rw [hcall] at he
        exact ih _ merged hm e he
      | ok o =>
        cases o with
        | none =>
          rw [hcall] at he
          exact ih _ merged hm e he
        | some entry =>
          rw [hcall] at he
          cases sessionId with
          | none =>
            simp only at he
            split at he
            · exact hpush entry hcall e he
            · exact ih _ _ (hpush entry hcall) e he
          | some sid =>
            simp only at he
            split at he
            · exact ih _ merged hm e he
            · split at he
              · exact hpush entry hcall e he
              · exact ih _ _ (hpush entry hcall) e he

/-- C6: every entry returned by hybrid recall — semantic-merge path and
every fallback path — is authoritatively present at the moment of its
lookup, with the authoritative row's content (never the semantic
payload).  The two hypotheses are the out-of-src authoritative backend's
coherence: its `recall` returns authoritative rows, and `get` by key
returns a row bearing that key. -/
theorem claim_C6 (sqliteRecall : MemRecall) (sqliteGet : MemGet)
    (qdrantRecall : MemRecall)
    (hrecall : ∀ (q : String) (l : Nat) (sid : Option String)
        (out : List MemoryEntry), sqliteRecall q l sid = .ok out →
        ∀ e ∈ out, AuthConsistent sqliteGet e)
    (hget : ∀ k row, sqliteGet k = .ok (some row) → row.key = k) :
    ∀ (query : String) (limit : Nat) (sessionId : Option String)
      (out : List MemoryEntry),
      hybridRecall sqliteRecall sqliteGet qdrantRecall query limit sessionId =
        .ok out →
      ∀ e ∈ out, AuthConsistent sqliteGet e := by
  intro query limit sessionId out hrun e he
  simp only [hybridRecall] at hrun
  split at hrun
  · exact hrecall query limit sessionId out hrun e he
  · split at hrun
    · exact hrecall _ limit sessionId out hrun e he
    · rename_i candidates heq
      split at hrun
      · exact hrecall _ limit sessionId out hrun e he
      · split at hrun
        · exact hrecall _ limit sessionId out hrun e he
        · have hout : mergeLoop sqliteGet sessionId limit candidates [] [] = out :=
            Except.ok.inj hrun
          rw [← hout] at he
          exact mergeLoop_auth sqliteGet hget sessionId limit candidates [] []
            (by intro x hx; exact absurd hx (List.not_mem_nil x)) e he

/-- Witness for C6 at the scenario-1 backends: the fallback result
`topic` is authoritatively consistent. -/
theorem claim_C6_witness : AuthConsistent sqGet1 topicEntry := by
  have hrecall : ∀ (q : String) (l : Nat) (sid : Option String)
      (out : List MemoryEntry), sqRecall1 q l sid = .ok out →
      ∀ e ∈ out, AuthConsistent sqGet1 e := by
    intro q l sid out hout e he
    have : [topicEntry] = out := Except.ok.inj hout
    rw [← this] at he
    rw [List.mem_singleton] at he
    subst he
    exact ⟨topicEntry, rfl, rfl⟩
  have hget : ∀ k row, sqGet1 k = .ok (some row) → row.key = k := by
    intro k row h
    have h' : (if k == "topic" then some topicEntry else none) = some row :=
      Except.ok.inj h
    split at h'
    · rename_i hk
      have : topicEntry = row := Option.some.inj h'
      rw [← this]
      have : k = "topic" := by simpa using hk
      rw [this]
      rfl
    · exact Option.noConfusion h'
  exact claim_C6 sqRecall1 sqGet1 qd1 hrecall hget "fallback" 5 none
    [topicEntry] rfl topicEntry (List.mem_singleton.mpr rfl)


/-! ## URL-access guard (`src/tools/web_fetch.rs`) — claim C1

The guard is pure validation except for the final
`validate_resolved_host_is_public` DNS lookup, which performs network I/O
(`cfg(test)` builds replace it with `Ok(())`); it is embedded as
accepting, and the claim is settled about the pure validator.  Rust's
Unicode `to_lowercase` is embedded as ASCII lowercasing (it appears
identically on the code and claim sides, and hostnames compared here are
ASCII). -/

/-- `str::strip_prefix` on char lists. -/
def stripPfx? : List Char → List Char → Option (List Char)
  | l, [] => some l
  | [], _ :: _ => none
  | c :: cs, p :: ps => if c == p then stripPfx? cs ps else none

/-- `str::strip_suffix` on char lists. -/
def stripSfx? (l pat : List Char) : Option (List Char) :=
  (stripPfx? l.reverse pat.reverse).map List.reverse

/-- `str::ends_with` on char lists. -/
def endsWithL (l pat : List Char) : Bool :=
  leadsWith l.reverse pat.reverse

/-- ASCII lowercasing (embeds `str::to_lowercase` for the hosts at hand). -/
def asciiToLower (c : Char) : Char :=
  if 'A' ≤ c && c ≤ 'Z' then Char.ofNat (c.toNat + 32) else c

/-- The segment after the last `'.'` — `host.rsplit('.').next()`. -/
def lastSeg (l : List Char) : List Char :=
  (l.reverse.takeWhile (fun c => c != '.')).reverse

/-- Drop every trailing `'.'` — `str::trim_end_matches('.')`. -/
def trimEndDots (l : List Char) : List Char :=
  (l.reverse.dropWhile (fun c => c == '.')).reverse

/-- `extract_host` (web_fetch.rs:639-675): strip the scheme, take the
authority (up to `/`, `?` or `#`), reject empty authorities, userinfo
(`@`) and bracketed IPv6 literals, then keep the part before `':'`,
trimmed, with trailing dots removed, lowercased; reject an empty result.
Error texts are dropped (`none` = rejection): the claim concerns only
acceptance. -/
def extract_host (url : List Char) : Option (List Char) :=
  match (stripPfx? url ("http://".data)).orElse
      (fun _ => stripPfx? url ("https://".data)) with
  | none => none
  | some rest =>
    let authority := rest.takeWhile (fun c => c != '/' && c != '?' && c != '#')
    if authority.isEmpty then none
    else if authority.contains '@' then none
    else if (match authority with | '[' :: _ => true | _ => false) then none
    else
      let host := ((trimChars (authority.takeWhile (fun c => c != ':'))
        ).reverse.dropWhile (fun c => c == '.')).reverse.map asciiToLower
      if host.isEmpty then none else some host

/-- Rust's `Ipv4Addr` octet parsing: 1-3 decimal digits, no leading zero,
value ≤ 255. -/
def parseOctet (g : List Char) : Option Nat :=
  if g.isEmpty || g.length > 3 then none
  else if !(g.all (fun c => c.isDigit)) then none
  else if (match g with | '0' :: _ :: _ => true | _ => false) then none
  else
    let v := g.foldl (fun a c => a * 10 + (c.toNat - 48)) 0
    if v ≤ 255 then some v else none

/-- `str::split` at a separator char (keeps empty segments). -/
def splitOnChar (sep : Char) : List Char → List (List Char)
  | [] => [[]]
  | c :: rest =>
    let r := splitOnChar sep rest
    if c == sep then [] :: r
    else
      match r with
      | g :: gs => (c :: g) :: gs
      | [] => [[c]]

/-- Rust `"…".parse::<Ipv4Addr>()`: exactly four octets. -/
def parseIpv4 (l : List Char) : Option (Nat × Nat × Nat × Nat) :=
  match splitOnChar '.' l with
  | [ga, gb, gc, gd] =>
    match parseOctet ga, parseOctet gb, parseOctet gc, parseOctet gd with
    | some a, some b, some c, some d => some (a, b, c, d)
    | _, _, _, _ => none
  | _ => none

/-- `is_non_global_v4` (web_fetch.rs:752-766) with the std range
predicates expanded: loopback 127/8; RFC1918 10/8, 172.16/12,
192.168/16; link-local 169.254/16; unspecified; broadcast; multicast
224/4; CGNAT 100.64/10; class-E `a ≥ 240`; `192.0.0/24` and `192.0.2/24`;
**`198.51.0.0/16`**; **`203.0.0.0/16`**; benchmark 198.18/15. -/
def is_non_global_v4 (a b c d : Nat) : Bool :=
  (a == 127)
    || (a == 10 || (a == 172 && (16 ≤ b && b ≤ 31)) || (a == 192 && b == 168))
    || (a == 169 && b == 254)
    || (a == 0 && b == 0 && c == 0 && d == 0)
    || (a == 255 && b == 255 && c == 255 && d == 255)
    || (224 ≤ a && a ≤ 239)
    || (a == 100 && (64 ≤ b && b ≤ 127))
    || (240 ≤ a)
    || (a == 192 && b == 0 && (c == 0 || c == 2))
    || (a == 198 && b == 51)
    || (a == 203 && b == 0)
    || (a == 198 && (18 ≤ b && b ≤ 19))

/-- `is_private_or_local_host` (web_fetch.rs:690-713).  The source parses
`IpAddr` (v4 then v6); a host without `':'` can never parse as IPv6, and
`extract_host` only produces `':'`-free hosts (`extract_host_no_colon`
below), so the v6 arm is unreachable here and only `Ipv4Addr` parsing is
embedded. -/
def is_private_or_local_host (host : List Char) : Bool :=
  let bare := ((stripPfx? host ['[']).bind (fun h => stripSfx? h [']'])).getD host
  let hasLocalTld := lastSeg bare == ("local".data)
  if bare == ("localhost".data) || endsWithL bare (".localhost".data) || hasLocalTld then
    true
  else
    match parseIpv4 bare with
    | some (a, b, c, d) => is_non_global_v4 a b c d
    | none => false

/-- `host_matches_allowlist` (web_fetch.rs:677-688): a literal `*` entry
matches anything; otherwise exact match or subdomain
(`strip_suffix(domain)` leaving a prefix that ends with `'.'`). -/
def host_matches_allowlist (host : List Char) (domains : List (List Char)) : Bool :=
  domains.any (fun d => d == ("*".data))
    || domains.any (fun d =>
        host == d ||
          ((stripSfx? host d).map (fun pre => pre.getLast? == some '.')).getD false)

/-- `validate_target_url` (web_fetch.rs:539-583): trim; reject empty,
whitespace, non-http(s) schemes, an empty allowlist; extract the host;
reject local/private hosts, blocklist matches and allowlist misses;
return the trimmed URL.  (`validate_resolved_host_is_public` — DNS — is
the `cfg(test)` `Ok(())`.) -/
def validate_target_url (rawUrl : String)
    (allowedDomains blockedDomains : List String) : Option String :=
  let url := trimChars rawUrl.data
  if url.isEmpty then none
  else if url.any rustIsWhitespace then none
  else if !(leadsWith url ("http://".data) || leadsWith url ("https://".data)) then
    none
  else if allowedDomains.isEmpty then none
  else
    match extract_host url with
    | none => none
    | some host =>
      if is_private_or_local_host host then none
      else if host_matches_allowlist host (blockedDomains.map String.data) then none
      else if !host_matches_allowlist host (allowedDomains.map String.data) then none
      else some (String.mk url)


/-- The IPv4 local/private classes exactly as the claim lists them
(frozen form): loopback, RFC1918, link-local, unspecified, broadcast,
multicast, CGNAT, class-E, the four **/24** TEST-NET blocks
`192.0.0/24`, `192.0.2/24`, `198.51.100/24`, `203.0.113/24`, and
benchmark `198.18/15`. -/
def specV4ClassesClaim (a b c d : Nat) : Bool :=
  (a == 127)
    || (a == 10 || (a == 172 && (16 ≤ b && b ≤ 31)) || (a == 192 && b == 168))
    || (a == 169 && b == 254)
    || (a == 0 && b == 0 && c == 0 && d == 0)
    || (a == 255 && b == 255 && c == 255 && d == 255)
    || (224 ≤ a && a ≤ 239)
    || (a == 100 && (64 ≤ b && b ≤ 127))
    || (240 ≤ a)
    || (a == 192 && b == 0 && (c == 0 || c == 2))
    || (a == 198 && b == 51 && c == 100)
    || (a == 203 && b == 0 && c == 113)
    || (a == 198 && (18 ≤ b && b ≤ 19))

/-- The claim's local/private host classes (frozen form): `localhost`,
`*.localhost`, `*.local` (a strict suffix — not the bare host `local`),
and the claim's IPv4 ranges.  (IPv6 classes are unreachable: IPv6 literal
hosts are rejected at extraction.) -/
def specLocalPrivateClaim (host : List Char) : Bool :=
  host == ("localhost".data) || endsWithL host (".localhost".data)
    || endsWithL host (".local".data)
    || (match parseIpv4 host with
        | some (a, b, c, d) => specV4ClassesClaim a b c d
        | none => false)

/-- The claim's blocklist test (frozen form): exact match or subdomain of
an entry — no wildcard clause. -/
def specBlockedClaim (host : List Char) (blocked : List (List Char)) : Bool :=
  blocked.any (fun d => host == d || endsWithL host ('.' :: d))

/-- The claim's acceptance predicate (frozen form): non-empty and
whitespace-free after trimming, `http`/`https` scheme, extractable bare
host (no userinfo, no IPv6 literal), not local/private per the claim's
class list, not blocked, and allowlisted with a non-empty allowlist. -/
def specAcceptsClaim (rawUrl : String)
    (allowedDomains blockedDomains : List String) : Bool :=
  let url := trimChars rawUrl.data
  !url.isEmpty && !(url.any rustIsWhitespace)
    && (leadsWith url ("http://".data) || leadsWith url ("https://".data))
    && (match extract_host url with
        | none => false
        | some host =>
          !specLocalPrivateClaim host
            && !specBlockedClaim host (blockedDomains.map String.data)
            && !allowedDomains.isEmpty
            && host_matches_allowlist host (allowedDomains.map String.data))

/-- The IPv4 classes as amended by the counterexample: the
`198.51.100/24` and `203.0.113/24` entries widen to `198.51.0.0/16` and
`203.0.0.0/16` (the ranges the code actually rejects). -/
def specV4ClassesAmended (a b c d : Nat) : Bool :=
  (a == 127)
    || (a == 10 || (a == 172 && (16 ≤ b && b ≤ 31)) || (a == 192 && b == 168))
    || (a == 169 && b == 254)
    || (a == 0 && b == 0 && c == 0 && d == 0)
    || (a == 255 && b == 255 && c == 255 && d == 255)
    || (224 ≤ a && a ≤ 239)
    || (a == 100 && (64 ≤ b && b ≤ 127))
    || (240 ≤ a)
    || (a == 192 && b == 0 && (c == 0 || c == 2))
    || (a == 198 && b == 51)
    || (a == 203 && b == 0)
    || (a == 198 && (18 ≤ b && b ≤ 19))

/-- The local/private host classes as amended: on the bare host (a
surrounding `[` `]` pair stripped — vacuous for hosts produced by
`extract_host`, which rejects bracketed authorities): `localhost`,
`*.localhost`, hosts whose last DNS label is `local` (including the bare
host `local`), and the amended IPv4 ranges. -/
def specLocalPrivateAmended (host : List Char) : Bool :=
  let bare := ((stripPfx? host ['[']).bind (fun h => stripSfx? h [']'])).getD host
  bare == ("localhost".data) || endsWithL bare (".localhost".data)
    || lastSeg bare == ("local".data)
    || (match parseIpv4 bare with
        | some (a, b, c, d) => specV4ClassesAmended a b c d
        | none => false)

/-- The acceptance predicate as amended: the amended local/private
classes, and the blocklist honoring a literal `*` entry (same matcher as
the allowlist). -/
def specAcceptsAmended (rawUrl : String)
    (allowedDomains blockedDomains : List String) : Bool :=
  let url := trimChars rawUrl.data
  !url.isEmpty && !(url.any rustIsWhitespace)
    && (leadsWith url ("http://".data) || leadsWith url ("https://".data))
    && (match extract_host url with
        | none => false
        | some host =>
          !specLocalPrivateAmended host
            && !host_matches_allowlist host (blockedDomains.map String.data)
            && !allowedDomains.isEmpty
            && host_matches_allowlist host (allowedDomains.map String.data))

/-- C1 counterexample, three concrete configurations the code rejects but
the claim's predicate accepts: (1) `198.51.1.1` — inside the code's
`198.51.0.0/16` but outside the claim's `198.51.100/24`; (2) the bare
host `local` — rejected by the code's last-label test but not matched by
the claim's `*.local`; (3) a blocklist entry `*` — the code blocks every
host, the claim's exact-or-subdomain reading blocks none. -/
theorem claim_C1_counterexample :
    validate_target_url "http://198.51.1.1/x" ["198.51.1.1"] [] = none
    ∧ specAcceptsClaim "http://198.51.1.1/x" ["198.51.1.1"] [] = true
    ∧ validate_target_url "http://local/" ["local"] [] = none
    ∧ specAcceptsClaim "http://local/" ["local"] [] = true
    ∧ validate_target_url "http://example.com/" ["example.com"] ["*"] = none
    ∧ specAcceptsClaim "http://example.com/" ["example.com"] ["*"] = true := by
  exact ⟨by decide, by decide, by decide, by decide, by decide, by decide⟩


/-- The embedded `is_non_global_v4` and the amended class list coincide. -/
theorem is_non_global_v4_eq_amended (a b c d : Nat) :
    is_non_global_v4 a b c d = specV4ClassesAmended a b c d := rfl

/-- The code's local/private test equals the amended class predicate. -/
theorem is_private_eq_amended (host : List Char) :
    is_private_or_local_host host = specLocalPrivateAmended host := by
  unfold is_private_or_local_host specLocalPrivateAmended
  cases hx : (((stripPfx? host ['[']).bind (fun h => stripSfx? h [']'])).getD host
      == ("localhost".data)
    || endsWithL (((stripPfx? host ['[']).bind (fun h => stripSfx? h [']'])).getD host)
      (".localhost".data)
    || lastSeg (((stripPfx? host ['[']).bind (fun h => stripSfx? h [']'])).getD host)
      == ("local".data)) with
  | true => simp only [hx, if_true, Bool.true_or]
  | false =>
    simp only [hx, Bool.false_eq_true, if_false, Bool.false_or]
    rfl

/-- C1 (amended): `validate_target_url` accepts a URL — returning it
trimmed — if and only if the amended acceptance predicate holds: trimmed
non-empty and whitespace-free, `http`/`https` scheme, extractable bare
host, host not local/private per the amended classes (TEST-NET entries
`198.51.0.0/16` and `203.0.0.0/16`, last-label `local`), host not matched
by `blocked_domains` (wildcard honored), and a non-empty
`allowed_domains` matching exactly, by subdomain, or via `*`.  (The DNS
step, network I/O, is outside the pure validator.) -/
theorem claim_C1 (rawUrl : String) (allowedDomains blockedDomains : List String) :
    validate_target_url rawUrl allowedDomains blockedDomains =
      (if specAcceptsAmended rawUrl allowedDomains blockedDomains then
        some (String.mk (trimChars rawUrl.data)) else none) := by
  simp only [validate_target_url, specAcceptsAmended]
  rcases Bool.eq_false_or_eq_true ((trimChars rawUrl.data).isEmpty) with h1 | h1
  · simp [h1]
  · simp only [h1, Bool.false_eq_true, if_false, Bool.not_false, Bool.true_and]
    rcases Bool.eq_false_or_eq_true ((trimChars rawUrl.data).any rustIsWhitespace)
      with h2 | h2
    · simp [h2]
    · simp only [h2, Bool.false_eq_true, if_false, Bool.not_false, Bool.true_and]
      rcases Bool.eq_false_or_eq_true (leadsWith (trimChars rawUrl.data)
        ("http://".data) || leadsWith (trimChars rawUrl.data) ("https://".data))
        with h3 | h3
      · simp only [h3, Bool.not_true, Bool.false_eq_true, if_false, Bool.true_and]
        cases h5 : extract_host (trimChars rawUrl.data) with
        | none =>
          rcases Bool.eq_false_or_eq_true allowedDomains.isEmpty with h4 | h4 <;>
            simp [h4]
        | some host =>
          rcases Bool.eq_false_or_eq_true allowedDomains.isEmpty with h4 | h4
          · simp [h4]
          · simp only [h4, Bool.false_eq_true, if_false, Bool.not_false]
            rw [is_private_eq_amended]
            rcases Bool.eq_false_or_eq_true (specLocalPrivateAmended host)
              with h6 | h6
            · simp [h6]
            · simp only [h6, Bool.false_eq_true, if_false, Bool.not_false,
                Bool.true_and]
              rcases Bool.eq_false_or_eq_true (host_matches_allowlist host
                (blockedDomains.map String.data)) with h7 | h7
              · simp [h7]
              · simp only [h7, Bool.false_eq_true, if_false, Bool.not_false,
                  Bool.true_and]
                rcases Bool.eq_false_or_eq_true (host_matches_allowlist host
                  (allowedDomains.map String.data)) with h8 | h8
                · simp [h8]
                · simp [h8]
      · simp [h3]

end ZeroClaw
